import Mathlib

/-
  Shallow embedding of src/main.py (Flashfood product scraper).

  The script is a single linear pipeline:
  fetch with retry (lines 55-92), transform via pandas (lines 94-165),
  batched insert into the destination table (lines 167-205).

  Modelling conventions:
  - JSON / pandas cell values are the inductive `Val`; the pandas missing
    marker (NaN) is `Val.nan`, JSON null is `Val.null`, and the
    pd.Timestamp computed once per run (line 106) is `Val.ts t` for an
    opaque tick `t : Nat`.
  - A product object / destination row is `Rec`, an association list of
    field name to value (Python dict, keys unique in practice).
  - The DataFrame of line 119 is a list of records each completed to the
    full column set (union of keys in order of first appearance, missing
    cells filled with NaN), which is exactly the pandas construction from
    a list of dicts.
  - Library calls (pd.to_numeric, astype, strftime, str.lower) are given
    executable elementwise semantics documented at their definitions.
  - exit(n) and an uncaught exception are the two `Outcome` constructors;
    an uncaught exception makes the interpreter exit with status 1.
-/

namespace FFScrape

/-- Cell values: JSON scalars and lists, the pandas NaN missing marker,
and the run timestamp value (pd.Timestamp, opaque tick).  A JSON array
is encoded as a cons chain `vcons v1 (vcons v2 ... vnil)`, which keeps
the inductive non-nested and its equality decidable by kernel
reduction. -/
inductive Val where
  | null
  | bool (b : Bool)
  | int (n : Int)
  | rat (q : Rat)
  | str (s : String)
  | nan
  | ts (t : Nat)
  | vnil
  | vcons (hd tl : Val)
deriving DecidableEq

/-- Encode a Lean list of values as a `Val` array. -/
def Val.ofList : List Val → Val
  | [] => .vnil
  | v :: vs => .vcons v (Val.ofList vs)

/-- Python `isinstance(x, list)` on a value. -/
def Val.isList : Val → Bool
  | .vnil => true
  | .vcons _ _ => true
  | _ => false

/-- A product object / destination row: association list of field name to
value, mirroring a Python dict. -/
abbrev Rec := List (String × Val)

/-- Python dict lookup: first pair whose key matches. -/
def lookupKey : Rec → String → Option Val
  | [], _ => none
  | kv :: r, k => if kv.1 = k then some kv.2 else lookupKey r k

/-- Python dict assignment `d[k] = v`: update in place if the key exists,
append at the end otherwise (line 113). -/
def setKey (r : Rec) (k : String) (v : Val) : Rec :=
  if r.any (fun kv => kv.1 = k) then
    r.map (fun kv => if kv.1 = k then (k, v) else kv)
  else r ++ [(k, v)]

/-- A value bound to a store id in the top-level "data" mapping: either a
JSON array of product objects or anything else (line 110 isinstance
check; array elements are product objects per the API schema). -/
inductive Entry where
  | list (ps : List Rec)
  | other (v : Val)
deriving DecidableEq

/-- The top-level mapping from store id to its entry (`data_res["data"]`). -/
abbrev Stores := List (String × Entry)

/-- Python truthiness of a value (`if x` on line 156): empty string, empty
list, zero, None and False are falsy; note float NaN is truthy. -/
def truthy : Val → Bool
  | .null => false
  | .bool b => b
  | .int n => n != 0
  | .rat q => q != 0
  | .str s => s != ""
  | .vnil => false
  | .vcons _ _ => true
  | .nan => true
  | .ts _ => true

/-- Lines 112-114: `product["scraper_timestamp"] = current_timestamp`. -/
def stampRec (t : Nat) (r : Rec) : Rec := setKey r "scraper_timestamp" (Val.ts t)

/-- Effect of the store loop body on one store entry: every product of a
list entry is stamped; a non-list entry is left unchanged (warning only). -/
def stampEntry (t : Nat) : Entry → Entry
  | .list ps => .list (ps.map (stampRec t))
  | .other v => .other v

/-- Product objects held by an entry (what the loop appends to
`all_columns` for that store). -/
def entryRecs : Entry → List Rec
  | .list ps => ps
  | .other _ => []

/-- Lines 108-116: the store loop, as explicit state passing.  Returns the
document after mutation together with `all_columns`; the record list is
built from the stamped (mutated) product objects themselves. -/
def stampStores (t : Nat) (stores : Stores) : Stores × List Rec :=
  let stores' := stores.map (fun p => (p.1, stampEntry t p.2))
  (stores', (stores'.map (fun p => entryRecs p.2)).flatten)

/-- Digits to number, most significant first. -/
def digitsToNat (cs : List Char) : Nat :=
  cs.foldl (fun a c => a * 10 + (c.toNat - 48)) 0

/-- Decimal-literal parse modelling the numeric parser behind
`pd.to_numeric`: optional sign, digits, at most one dot, at least one
digit overall.  Unparsable strings yield `none`. -/
def parseDec (s : String) : Option Rat :=
  let cs := s.data
  let signed : Bool × List Char :=
    match cs with
    | '-' :: rest => (true, rest)
    | '+' :: rest => (false, rest)
    | rest => (false, rest)
  let ip := signed.2.takeWhile (fun c => c != '.')
  let rest := signed.2.dropWhile (fun c => c != '.')
  match rest with
  | [] =>
    if ip ≠ [] ∧ ip.all Char.isDigit then
      some (if signed.1 then -(digitsToNat ip : Rat) else (digitsToNat ip : Rat))
    else none
  | _ :: fp =>
    if (ip ≠ [] ∨ fp ≠ []) ∧ ip.all Char.isDigit ∧ fp.all Char.isDigit then
      let q : Rat := (digitsToNat ip : Rat) + (digitsToNat fp : Rat) / (10 : Rat) ^ fp.length
      some (if signed.1 then -q else q)
    else none

/-- Integer-literal parse modelling `int(str)` as used by the numpy
int64 cast: optional sign then digits only. -/
def parsePyInt (s : String) : Option Int :=
  let signed : Bool × List Char :=
    match s.data with
    | '-' :: rest => (true, rest)
    | '+' :: rest => (false, rest)
    | rest => (false, rest)
  if signed.2 ≠ [] ∧ signed.2.all Char.isDigit then
    some (if signed.1 then -(digitsToNat signed.2 : Int) else (digitsToNat signed.2 : Int))
  else none

/-- Smallest int64. -/
def int64Min : Int := -(2 ^ 63)

/-- Largest int64. -/
def int64Max : Int := 2 ^ 63 - 1

/-- Truncation toward zero, as numpy float-to-int casting does. -/
def ratTrunc (q : Rat) : Int := q.num.tdiv (q.den : Int)

/-- Elementwise semantics of `pd.to_numeric(col, errors="coerce")`
(lines 145, 147): numbers pass through, booleans become 0/1, parsable
strings become their numeric value, everything unparsable (including
None and NaN) becomes the NaN missing marker instead of raising. -/
def toNumericCoerce : Val → Val
  | .int n => .int n
  | .rat q => .rat q
  | .bool b => .int (if b then 1 else 0)
  | .null => .nan
  | .nan => .nan
  | .str s =>
    match parseDec s with
    | some q => if q.den = 1 then .int q.num else .rat q
    | none => .nan
  | .vnil => .nan
  | .vcons _ _ => .nan
  | .ts _ => .nan

/-- Elementwise semantics of the strict `astype("int64")` cast
(lines 149, 151): ints must fit in 64 bits, floats truncate toward zero,
integer-literal strings parse, and everything else (NaN, None, lists,
unparsable strings, out-of-range values) raises. -/
def toInt64Strict : Val → Except String Val
  | .int n =>
    if int64Min ≤ n ∧ n ≤ int64Max then .ok (.int n) else .error "OverflowError"
  | .bool b => .ok (.int (if b then 1 else 0))
  | .rat q =>
    let n := ratTrunc q
    if int64Min ≤ n ∧ n ≤ int64Max then .ok (.int n) else .error "OverflowError"
  | .nan => .error "cannot convert non-finite values to integer"
  | .null => .error "int argument must not be None"
  | .str s =>
    match parsePyInt s with
    | some n =>
      if int64Min ≤ n ∧ n ≤ int64Max then .ok (.int n) else .error "OverflowError"
    | none => .error ("invalid literal for int with base 10: " ++ s)
  | .vnil => .error "TypeError: list to int64"
  | .vcons _ _ => .error "TypeError: list to int64"
  | .ts _ => .error "TypeError: timestamp to int64"

/-- Lines 155-157, the image gallery lambda:
`x if isinstance(x, list) else [x] if x else []`. -/
def normGallery (v : Val) : Val :=
  if v.isList then v
  else if truthy v then .vcons v .vnil else .vnil

/-- Line 160, `df.where(pd.notna(df), None)` elementwise: the missing
markers NaN and None serialize as explicit null; all other values are
kept as they are. -/
def deNa : Val → Val
  | .nan => .null
  | .null => .null
  | v => v

/-- Line 138: `pd.to_datetime(cell)` followed by strftime with the fixed
ISO-with-Z format, elementwise.  The run timestamp formats to the string
`fmt t`; any other value in the column makes the conversion raise (the
column normally holds only the run timestamp). -/
def fmtCell (fmt : Nat → String) : Val → Except String Val
  | .ts t => .ok (.str (fmt t))
  | _ => .error "to_datetime: unsupported value"

/-- Error-propagating map over a list, first error wins (models a pandas
column operation that raises on a bad cell). -/
def mapME (f : α → Except String β) : List α → Except String (List β)
  | [] => .ok []
  | a :: l =>
    match f a with
    | .error e => .error e
    | .ok b =>
      match mapME f l with
      | .error e => .error e
      | .ok bs => .ok (b :: bs)

/-- Accumulate keys not yet seen, preserving first-appearance order. -/
def addKeys (acc : List String) : List String → List String
  | [] => acc
  | k :: ks => addKeys (if k ∈ acc then acc else acc ++ [k]) ks

/-- Worker for `unionKeys`. -/
def unionKeysGo (acc : List String) : List Rec → List String
  | [] => acc
  | r :: rs => unionKeysGo (addKeys acc (r.map Prod.fst)) rs

/-- Column set of `pd.DataFrame(list_of_dicts)`: union of the record
keys in order of first appearance. -/
def unionKeys (rs : List Rec) : List String := unionKeysGo [] rs

/-- One DataFrame row: a record completed to the full column list, with
NaN in the cells whose field is missing from the record. -/
def completeRec (cols : List String) (r : Rec) : Rec :=
  cols.map (fun c => (c, (lookupKey r c).getD Val.nan))

/-- Python `str.lower` on a column name, modelled characterwise with
`Char.toLower` (ASCII letters; column names are ASCII camelCase in
practice). -/
def strLower (s : String) : String := ⟨s.data.map Char.toLower⟩

/-- Line 122, `df.columns.str.lower()`: rename every column to its
lower-cased form. -/
def lowerKeys (r : Rec) : Rec :=
  r.map (fun kv => (strLower kv.1, kv.2))

/-- Column assignment `df[c] = f(df[c])` restricted to one row: apply `f`
to every field named `c`, keep the rest. -/
def convCol (c : String) (f : Val → Val) (r : Rec) : Rec :=
  r.map (fun kv => if kv.1 = c then (kv.1, f kv.2) else kv)

/-- Fallible column assignment restricted to one row: apply `f` to every
field named `c`, raising on the first bad cell. -/
def convColE (c : String) (f : Val → Except String Val) (r : Rec) : Except String Rec :=
  mapME (fun kv => if kv.1 = c then (f kv.2).map (fun v => (kv.1, v)) else .ok kv) r

/-- Test `c in df.columns`: some record carries the field. -/
def hasCol (c : String) (df : List Rec) : Bool :=
  df.any (fun r => r.any (fun kv => kv.1 = c))

/-- One guarded fallible column conversion: `if c in df.columns:
df[c] = f(df[c])` where `f` may raise. -/
def convStepE (c : String) (f : Val → Except String Val) (df : List Rec) :
    Except String (List Rec) :=
  if hasCol c df then mapME (convColE c f) df else .ok df

/-- One guarded total column conversion: `if c in df.columns:
df[c] = f(df[c])`. -/
def convStepP (c : String) (f : Val → Val) (df : List Rec) : List Rec :=
  if hasCol c df then df.map (convCol c f) else df

/-- Lines 137-157 in source order: timestamp formatting, the two tolerant
numeric coercions, the two strict int64 casts, the gallery
normalization; each guarded by its column-presence check. -/
def applyConversions (fmt : Nat → String) (df : List Rec) : Except String (List Rec) :=
  (convStepE "scraper_timestamp" (fmtCell fmt) df).bind fun df1 =>
    (convStepE "bestbeforedate" toInt64Strict
        (convStepP "price" toNumericCoerce
          (convStepP "originalprice" toNumericCoerce df1))).bind fun df4 =>
      (convStepE "quantityavailable" toInt64Strict df4).bind fun df5 =>
        .ok (convStepP "imagegallery" normGallery df5)

/-- Line 160, record serialization: every remaining missing marker
becomes an explicit null, keys are kept. -/
def serializeRec (r : Rec) : Rec :=
  r.map (fun kv => (kv.1, deNa kv.2))

/-- Lines 119-122: assemble the DataFrame from `all_columns` (columns
are the key union, missing cells NaN) and lower-case the column names.
Under pandas 2.x (this repository has no dependency pin) a DataFrame
with no columns has an integer RangeIndex for its columns, on which the
`.str` accessor of line 122 raises AttributeError; so the lower-casing
step fails exactly when the column set is empty, which given stamping
happens exactly when no record was assembled. -/
def buildDf (t : Nat) (stores : Stores) : Except String (List Rec) :=
  let recs := (stampStores t stores).2
  let cols := unionKeys recs
  if cols.isEmpty then
    .error "AttributeError: Can only use .str accessor with string values!"
  else
    .ok ((recs.map (completeRec cols)).map lowerKeys)

/-- Process outcome: an explicit `exit(n)` or an uncaught exception
(which makes the interpreter exit with a non-zero status). -/
inductive Outcome where
  | exited (code : Nat)
  | raised (msg : String)
deriving DecidableEq

/-- Exit status of the process for an outcome; an uncaught exception
exits with status 1. -/
def exitCode : Outcome → Nat
  | .exited c => c
  | .raised _ => 1

/-- Observables of one run: outcome, the batches passed to insert in
order, `total_inserted`, and the `errors` list. -/
structure RunResult where
  outcome : Outcome
  insertCalls : List (List Rec)
  totalInserted : Nat
  loadErrors : List String
deriving DecidableEq

/-- Line 170: `batch_size = 1000`. -/
def batchSize : Nat := 1000

/-- Worker for `pyRange`, fuelled (the fuel is an upper bound on the
number of iterations; `stop` suffices for `step ≥ 1`). -/
def pyRangeAux (step : Nat) : Nat → Nat → Nat → List Nat
  | 0, _, _ => []
  | fuel + 1, start, stop =>
    if start < stop then start :: pyRangeAux step fuel (start + step) stop else []

/-- Python `range(start, stop, step)` for a positive step. -/
def pyRange (start stop step : Nat) : List Nat := pyRangeAux step stop start stop

/-- Lines 174-191, the batch loop: for each start index, slice the batch,
compute its 1-based number, attempt the insert; a success adds the batch
size to the total, a failure appends one "Batch n: msg" entry; every
batch is attempted either way. -/
def loadGo (insert : Nat → List Rec → Except String Unit) (data : List Rec) :
    List Nat → List (List Rec) × Nat × List String
  | [] => ([], 0, [])
  | i :: idxs =>
    let batch := (data.drop i).take batchSize
    let bnum := i / batchSize + 1
    let rest := loadGo insert data idxs
    match insert bnum batch with
    | .ok _ => (batch :: rest.1, batch.length + rest.2.1, rest.2.2)
    | .error e =>
      (batch :: rest.1, rest.2.1, ("Batch " ++ toString bnum ++ ": " ++ e) :: rest.2.2)

/-- The whole batch loop over `range(0, len(data), batch_size)`. -/
def runLoad (insert : Nat → List Rec → Except String Unit) (data : List Rec) :
    List (List Rec) × Nat × List String :=
  loadGo insert data (pyRange 0 data.length batchSize)

/-- Lines 174-205: run the batch loop, then exit 1 if any batch failed
and 0 otherwise. -/
def finishLoad (insert : Nat → List Rec → Except String Unit) (data : List Rec) :
    RunResult :=
  let r := runLoad insert data
  ⟨if r.2.2.isEmpty then .exited 0 else .exited 1, r.1, r.2.1, r.2.2⟩

/-- The batch partition by itself: the slices `data[i : i + batch_size]`
for `i in range(0, len(data), batch_size)`. -/
def sliceBatches (data : List Rec) : List (List Rec) :=
  (pyRange 0 data.length batchSize).map (fun i => (data.drop i).take batchSize)

/-- Continuation after the type conversions: a conversion raise escapes
uncaught; otherwise serialize the records (line 160) and load them. -/
def afterConv (insert : Nat → List Rec → Except String Unit) :
    Except String (List Rec) → RunResult
  | .error e => ⟨.raised e, [], 0, []⟩
  | .ok df2 => finishLoad insert (df2.map serializeRec)

/-- Continuation after the DataFrame assembly: a raise at line 122
escapes uncaught; otherwise the line-129 `df.empty` check exits 0 (a
branch which, with every record stamped, is unreachable once line 122
has succeeded), then the conversions run. -/
def afterBuild (fmt : Nat → String) (insert : Nat → List Rec → Except String Unit) :
    Except String (List Rec) → RunResult
  | .error e => ⟨.raised e, [], 0, []⟩
  | .ok df =>
    if df.isEmpty then ⟨.exited 0, [], 0, []⟩
    else afterConv insert (applyConversions fmt df)

/-- Lines 94-205: everything after the fetch.  `dataField` is the
top-level "data" mapping if present (`data_res.get("data", {})`); `t`
the run timestamp; `fmt` the strftime rendering; `insert` the insert
outcome per batch number and batch. -/
def runPipeline (dataField : Option Stores) (t : Nat) (fmt : Nat → String)
    (insert : Nat → List Rec → Except String Unit) : RunResult :=
  let stores := dataField.getD []
  if stores.isEmpty then ⟨.exited 1, [], 0, []⟩
  else afterBuild fmt insert (buildDf t stores)

/-- Line 55: `max_retries = 3`. -/
def maxRetries : Nat := 3

/-- Observables of the fetch loop: its result, the number of GET
attempts issued, and the successive backoff waits in seconds. -/
structure FetchOut (α : Type) where
  result : Except String α
  calls : Nat
  waits : List Nat

/-- Lines 58-87, the retry loop: attempt the GET; on success break; on
failure wait `2 ^ attempt` seconds and retry while attempts remain,
re-raise on the last attempt.  The fuel-exhausted case models the dead
`data_res is None` check of lines 90-92 (unreachable for three
retries). -/
def fetchGo (res : Nat → Except String α) : Nat → Nat → FetchOut α
  | 0, _ => ⟨.error "no data available", 0, []⟩
  | fuel + 1, attempt =>
    match res attempt with
    | .ok a => ⟨.ok a, 1, []⟩
    | .error e =>
      if attempt < maxRetries - 1 then
        let out := fetchGo res fuel (attempt + 1)
        ⟨out.result, out.calls + 1, 2 ^ attempt :: out.waits⟩
      else ⟨.error e, 1, []⟩

/-- The fetch stage: the retry loop started at attempt 0. -/
def runFetch (res : Nat → Except String α) : FetchOut α := fetchGo res maxRetries 0

/-- The whole process: fetch, then the pipeline; a fetch failure
propagates as an uncaught exception with nothing loaded (the local-file
fallback of lines 75-85 is commented out in the source). -/
def runProgram (res : Nat → Except String (Option Stores)) (t : Nat)
    (fmt : Nat → String) (insert : Nat → List Rec → Except String Unit) : RunResult :=
  match (runFetch res).result with
  | .error e => ⟨.raised e, [], 0, []⟩
  | .ok dataField => runPipeline dataField t fmt insert

/-! Helper lemmas about the record and key operations. -/

theorem map_eq_self_mem {α : Type} (f : α → α) :
    ∀ (l : List α), l.map f = l → ∀ a ∈ l, f a = a := by
  intro l
  induction l with
  | nil => intro _ a ha; cases ha
  | cons x xs ih =>
    intro h a ha
    rw [List.map_cons] at h
    injection h with h1 h2
    cases ha with
    | head => exact h1
    | tail _ hmem => exact ih h2 a hmem

theorem lookupKey_setKey (r : Rec) (k : String) (v : Val) :
    lookupKey (setKey r k v) k = some v := by
  unfold setKey
  cases hany : r.any (fun kv => kv.1 = k) with
  | true =>
    rw [if_pos rfl]
    induction r with
    | nil => cases hany
    | cons kv rest ih =>
      by_cases hk : kv.1 = k
      · simp [lookupKey, hk]
      · have hrest : rest.any (fun kv => kv.1 = k) = true := by
          simpa [List.any_cons, hk] using hany
        simpa [lookupKey, hk] using ih hrest
  | false =>
    rw [if_neg (by simp [hany])]
    induction r with
    | nil => simp [lookupKey]
    | cons kv rest ih =>
      have hk : kv.1 ≠ k := by
        intro hkk
        simp [List.any_cons, hkk] at hany
      have hrest : rest.any (fun kv => kv.1 = k) = false := by
        simpa [List.any_cons, hk] using hany
      simpa [lookupKey, hk] using ih hrest

theorem keys_setKey (r : Rec) (k k' : String) (v : Val)
    (h : k' ∈ (setKey r k v).map Prod.fst) : k' ∈ r.map Prod.fst ∨ k' = k := by
  unfold setKey at h
  split at h
  · rw [List.map_map] at h
    rcases List.mem_map.mp h with ⟨kv, hkv, hfst⟩
    by_cases hk : kv.1 = k
    · right
      simp only [Function.comp, hk, if_pos] at hfst
      exact hfst.symm
    · left
      simp only [Function.comp, hk, if_neg, if_false] at hfst
      exact hfst ▸ List.mem_map.mpr ⟨kv, hkv, rfl⟩
  · rw [List.map_append] at h
    rcases List.mem_append.mp h with h1 | h2
    · exact Or.inl h1
    · right
      simpa using h2

theorem lookupKey_mem_keys {r : Rec} {k : String} {v : Val}
    (h : lookupKey r k = some v) : k ∈ r.map Prod.fst := by
  induction r with
  | nil => cases h
  | cons kv rest ih =>
    by_cases hk : kv.1 = k
    · exact hk ▸ List.mem_map.mpr ⟨kv, List.mem_cons_self kv rest, rfl⟩
    · rw [lookupKey, if_neg hk] at h
      exact List.mem_cons_of_mem _ (ih h)

theorem mem_keys_lookupKey {r : Rec} {k : String}
    (h : k ∈ r.map Prod.fst) : ∃ v, lookupKey r k = some v := by
  induction r with
  | nil => cases h
  | cons kv rest ih =>
    by_cases hk : kv.1 = k
    · exact ⟨kv.2, by rw [lookupKey, if_pos hk]⟩
    · rcases List.mem_map.mp h with ⟨kv', hkv', hfst⟩
      cases hkv' with
      | head => exact absurd hfst hk
      | tail _ hmem =>
        rcases ih (List.mem_map.mpr ⟨kv', hmem, hfst⟩) with ⟨v, hv⟩
        exact ⟨v, by rw [lookupKey, if_neg hk]; exact hv⟩

theorem mem_addKeys (c : String) (ks : List String) :
    ∀ acc, c ∈ addKeys acc ks ↔ c ∈ acc ∨ c ∈ ks := by
  induction ks with
  | nil => intro acc; simp [addKeys]
  | cons k rest ih =>
    intro acc
    rw [addKeys, ih]
    by_cases hk : k ∈ acc
    · rw [if_pos hk]
      constructor
      · rintro (h | h)
        · exact Or.inl h
        · exact Or.inr (List.mem_cons_of_mem _ h)
      · rintro (h | h)
        · exact Or.inl h
        · cases h with
          | head => exact Or.inl hk
          | tail _ hmem => exact Or.inr hmem
    · rw [if_neg hk]
      constructor
      · rintro (h | h)
        · rcases List.mem_append.mp h with h1 | h2
          · exact Or.inl h1
          · exact Or.inr (by simpa using Or.inl (List.mem_singleton.mp h2))
        · exact Or.inr (List.mem_cons_of_mem _ h)
      · rintro (h | h)
        · exact Or.inl (List.mem_append.mpr (Or.inl h))
        · cases h with
          | head => exact Or.inl (List.mem_append.mpr (Or.inr (by simp)))
          | tail _ hmem => exact Or.inr hmem

theorem mem_unionKeysGo (c : String) (rs : List Rec) :
    ∀ acc, c ∈ unionKeysGo acc rs ↔ c ∈ acc ∨ ∃ r ∈ rs, c ∈ r.map Prod.fst := by
  induction rs with
  | nil => intro acc; simp [unionKeysGo]
  | cons r rest ih =>
    intro acc
    rw [unionKeysGo, ih, mem_addKeys]
    constructor
    · rintro ((h | h) | h)
      · exact Or.inl h
      · exact Or.inr ⟨r, List.mem_cons_self r rest, h⟩
      · rcases h with ⟨r', hr', hc⟩
        exact Or.inr ⟨r', List.mem_cons_of_mem _ hr', hc⟩
    · rintro (h | h)
      · exact Or.inl (Or.inl h)
      · rcases h with ⟨r', hr', hc⟩
        cases hr' with
        | head => exact Or.inl (Or.inr hc)
        | tail _ hmem => exact Or.inr ⟨r', hmem, hc⟩

theorem mem_unionKeys {c : String} {rs : List Rec} :
    c ∈ unionKeys rs ↔ ∃ r ∈ rs, c ∈ r.map Prod.fst := by
  rw [unionKeys, mem_unionKeysGo]
  simp

theorem keys_completeRec (cols : List String) (r : Rec) :
    (completeRec cols r).map Prod.fst = cols := by
  rw [completeRec, List.map_map]
  show cols.map (fun c => c) = cols
  exact List.map_id' cols

theorem lookupKey_completeRec {cols : List String} {k : String} (r : Rec)
    (h : k ∈ cols) :
    lookupKey (completeRec cols r) k = some ((lookupKey r k).getD Val.nan) := by
  induction cols with
  | nil => cases h
  | cons c rest ih =>
    by_cases hc : c = k
    · rw [completeRec, List.map_cons, lookupKey, if_pos hc, hc]
    · cases h with
      | head => exact absurd rfl hc
      | tail _ hmem =>
        rw [completeRec, List.map_cons, lookupKey, if_neg hc]
        exact ih hmem

theorem keys_lowerKeys (r : Rec) :
    (lowerKeys r).map Prod.fst = (r.map Prod.fst).map strLower := by
  rw [lowerKeys, List.map_map, List.map_map]
  rfl

theorem lookupKey_lowerKeys {r : Rec} {k : String}
    (hks : ∀ k' ∈ r.map Prod.fst, strLower k' = k → k' = k)
    (hk : strLower k = k) :
    lookupKey (lowerKeys r) k = lookupKey r k := by
  induction r with
  | nil => rfl
  | cons kv rest ih =>
    have hhead : kv.1 ∈ (kv :: rest).map Prod.fst := List.mem_map.mpr ⟨kv, by simp, rfl⟩
    by_cases hkk : kv.1 = k
    · rw [lowerKeys, List.map_cons, lookupKey, if_pos (by rw [hkk]; exact hk),
        lookupKey, if_pos hkk]
    · have hlow : strLower kv.1 ≠ k := fun hcon => hkk (hks kv.1 hhead hcon)
      rw [lowerKeys, List.map_cons, lookupKey, if_neg hlow, lookupKey, if_neg hkk]
      exact ih (fun k' hk' => hks k' (List.mem_cons_of_mem _ hk'))

theorem keys_convCol (c : String) (f : Val → Val) (r : Rec) :
    (convCol c f r).map Prod.fst = r.map Prod.fst := by
  rw [convCol, List.map_map]
  apply List.map_congr_left
  intro kv _
  by_cases hk : kv.1 = c
  · simp [Function.comp, hk]
  · simp [Function.comp, hk]

theorem lookupKey_convCol_ne {c k : String} (f : Val → Val) (r : Rec)
    (h : k ≠ c) : lookupKey (convCol c f r) k = lookupKey r k := by
  induction r with
  | nil => rfl
  | cons kv rest ih =>
    by_cases hk : kv.1 = c
    · rw [convCol, List.map_cons, if_pos hk, lookupKey, lookupKey]
      have : kv.1 ≠ k := fun hcon => h (hcon ▸ hk)
      rw [if_neg this, if_neg this]
      exact ih
    · rw [convCol, List.map_cons, if_neg hk, lookupKey, lookupKey]
      by_cases hkk : kv.1 = k
      · rw [if_pos hkk, if_pos hkk]
      · rw [if_neg hkk, if_neg hkk]
        exact ih

theorem keys_serializeRec (r : Rec) :
    (serializeRec r).map Prod.fst = r.map Prod.fst := by
  rw [serializeRec, List.map_map]
  rfl

theorem lookupKey_serializeRec (r : Rec) (k : String) :
    lookupKey (serializeRec r) k = (lookupKey r k).map deNa := by
  induction r with
  | nil => rfl
  | cons kv rest ih =>
    by_cases hk : kv.1 = k
    · rw [serializeRec, List.map_cons, lookupKey, if_pos hk, lookupKey, if_pos hk]
      rfl
    · rw [serializeRec, List.map_cons, lookupKey, if_neg hk, lookupKey, if_neg hk]
      exact ih

theorem mapME_ok_mem {α β : Type} {g : α → Except String β} :
    ∀ {l : List α} {l' : List β}, mapME g l = .ok l' →
      ∀ b ∈ l', ∃ a ∈ l, g a = .ok b := by
  intro l
  induction l with
  | nil =>
    intro l' h b hb
    rw [mapME] at h
    injection h with h
    subst h
    cases hb
  | cons a rest ih =>
    intro l' h b hb
    rw [mapME] at h
    cases hga : g a with
    | error e => rw [hga] at h; cases h
    | ok b0 =>
      rw [hga] at h
      cases hrest : mapME g rest with
      | error e => rw [hrest] at h; cases h
      | ok bs =>
        rw [hrest] at h
        injection h with h
        subst h
        cases hb with
        | head => exact ⟨a, List.mem_cons_self a rest, hga⟩
        | tail _ hmem =>
          rcases ih hrest b hmem with ⟨a', ha', hga'⟩
          exact ⟨a', List.mem_cons_of_mem _ ha', hga'⟩

theorem convColE_ok_keys {c : String} {f : Val → Except String Val} :
    ∀ {r r' : Rec}, convColE c f r = .ok r' →
      r'.map Prod.fst = r.map Prod.fst := by
  intro r
  induction r with
  | nil =>
    intro r' h
    rw [convColE, mapME] at h
    injection h with h
    subst h
    rfl
  | cons kv rest ih =>
    intro r' h
    rw [convColE, mapME] at h
    by_cases hk : kv.1 = c
    · rw [if_pos hk] at h
      cases hf : f kv.2 with
      | error e => rw [hf] at h; cases h
      | ok w =>
        rw [hf] at h
        cases hrest : mapME (fun kv => if kv.1 = c then (f kv.2).map (fun v => (kv.1, v)) else .ok kv) rest with
        | error e => rw [hrest] at h; cases h
        | ok bs =>
          rw [hrest] at h
          injection h with h
          subst h
          rw [List.map_cons, List.map_cons, ih hrest]
    · rw [if_neg hk] at h
      cases hrest : mapME (fun kv => if kv.1 = c then (f kv.2).map (fun v => (kv.1, v)) else .ok kv) rest with
      | error e => rw [hrest] at h; cases h
      | ok bs =>
        rw [hrest] at h
        injection h with h
        subst h
        rw [List.map_cons, List.map_cons, ih hrest]

theorem convColE_ok_lookup_ne {c k : String} {f : Val → Except String Val}
    (hne : k ≠ c) :
    ∀ {r r' : Rec}, convColE c f r = .ok r' →
      lookupKey r' k = lookupKey r k := by
  intro r
  induction r with
  | nil =>
    intro r' h
    rw [convColE, mapME] at h
    injection h with h
    subst h
    rfl
  | cons kv rest ih =>
    intro r' h
    rw [convColE, mapME] at h
    by_cases hk : kv.1 = c
    · rw [if_pos hk] at h
      cases hf : f kv.2 with
      | error e => rw [hf] at h; cases h
      | ok w =>
        rw [hf] at h
        cases hrest : mapME (fun kv => if kv.1 = c then (f kv.2).map (fun v => (kv.1, v)) else .ok kv) rest with
        | error e => rw [hrest] at h; cases h
        | ok bs =>
          rw [hrest] at h
          injection h with h
          subst h
          have hkk : kv.1 ≠ k := fun hcon => hne (hcon ▸ hk)
          rw [lookupKey, lookupKey, if_neg hkk, if_neg hkk]
          exact ih hrest
    · rw [if_neg hk] at h
      cases hrest : mapME (fun kv => if kv.1 = c then (f kv.2).map (fun v => (kv.1, v)) else .ok kv) rest with
      | error e => rw [hrest] at h; cases h
      | ok bs =>
        rw [hrest] at h
        injection h with h
        subst h
        rw [lookupKey, lookupKey]
        by_cases hkk : kv.1 = k
        · rw [if_pos hkk, if_pos hkk]
        · rw [if_neg hkk, if_neg hkk]
          exact ih hrest

theorem convColE_ok_lookup_eq {c : String} {f : Val → Except String Val} {v : Val} :
    ∀ {r r' : Rec}, convColE c f r = .ok r' → lookupKey r c = some v →
      ∃ w, f v = .ok w ∧ lookupKey r' c = some w := by
  intro r
  induction r with
  | nil => intro r' _ hl; cases hl
  | cons kv rest ih =>
    intro r' h hl
    rw [convColE, mapME] at h
    by_cases hk : kv.1 = c
    · rw [if_pos hk] at h
      rw [lookupKey, if_pos hk] at hl
      injection hl with hl
      cases hf : f kv.2 with
      | error e => rw [hf] at h; cases h
      | ok w =>
        rw [hf] at h
        cases hrest : mapME (fun kv => if kv.1 = c then (f kv.2).map (fun v => (kv.1, v)) else .ok kv) rest with
        | error e => rw [hrest] at h; cases h
        | ok bs =>
          rw [hrest] at h
          injection h with h
          subst h
          exact ⟨w, hl ▸ hf, by rw [lookupKey, if_pos hk]⟩
    · rw [if_neg hk] at h
      rw [lookupKey, if_neg hk] at hl
      cases hrest : mapME (fun kv => if kv.1 = c then (f kv.2).map (fun v => (kv.1, v)) else .ok kv) rest with
      | error e => rw [hrest] at h; cases h
      | ok bs =>
        rw [hrest] at h
        injection h with h
        subst h
        rcases ih hrest hl with ⟨w, hw, hlook⟩
        exact ⟨w, hw, by rw [lookupKey, if_neg hk]; exact hlook⟩

theorem hasCol_iff {c : String} {df : List Rec} :
    hasCol c df = true ↔ ∃ r ∈ df, c ∈ r.map Prod.fst := by
  rw [hasCol, List.any_eq_true]
  constructor
  · rintro ⟨r, hr, hany⟩
    rcases List.any_eq_true.mp hany with ⟨kv, hkv, heq⟩
    exact ⟨r, hr, List.mem_map.mpr ⟨kv, hkv, of_decide_eq_true heq⟩⟩
  · rintro ⟨r, hr, hc⟩
    rcases List.mem_map.mp hc with ⟨kv, hkv, heq⟩
    exact ⟨r, hr, List.any_eq_true.mpr ⟨kv, hkv, decide_eq_true heq⟩⟩

theorem toNat_ofNat_valid {n : Nat} (h : n < 55296) : (Char.ofNat n).toNat = n := by
  unfold Char.ofNat
  rw [dif_pos (Or.inl h)]
  rfl

theorem charToLower_idem (c : Char) : c.toLower.toLower = c.toLower := by
  unfold Char.toLower
  by_cases h : c.toNat ≥ 65 ∧ c.toNat ≤ 90
  · rw [if_pos h]
    have hv : (Char.ofNat (c.toNat + 32)).toNat = c.toNat + 32 :=
      toNat_ofNat_valid (by omega)
    rw [hv, if_neg (by omega)]
  · rw [if_neg h, if_neg h]

theorem strLower_idem (s : String) : strLower (strLower s) = strLower s := by
  show String.mk ((s.data.map Char.toLower).map Char.toLower) = String.mk (s.data.map Char.toLower)
  rw [List.map_map]
  congr 1
  apply List.map_congr_left
  intro c _
  exact charToLower_idem c

theorem stampStores_snd (t : Nat) (stores : Stores) :
    (stampStores t stores).2 =
      ((stampStores t stores).1.map (fun p => entryRecs p.2)).flatten := rfl

theorem mem_stampStores_snd {t : Nat} {stores : Stores} {r : Rec}
    (h : r ∈ (stampStores t stores).2) :
    ∃ p ∈ stores, ∃ ps, p.2 = Entry.list ps ∧ ∃ r0 ∈ ps, r = stampRec t r0 := by
  rw [stampStores] at h
  rcases List.mem_flatten.mp h with ⟨l, hl, hr⟩
  rcases List.mem_map.mp hl with ⟨p', hp', hlp⟩
  rcases List.mem_map.mp hp' with ⟨p, hp, hpp⟩
  subst hpp
  cases hent : p.2 with
  | list ps =>
    refine ⟨p, hp, ps, hent, ?_⟩
    rw [← hlp] at hr
    simp only [hent, stampEntry, entryRecs] at hr
    rcases List.mem_map.mp hr with ⟨r0, hr0, hstamp⟩
    exact ⟨r0, hr0, hstamp.symm⟩
  | other v =>
    exfalso
    rw [← hlp] at hr
    simp only [hent, stampEntry, entryRecs] at hr
    cases hr

theorem lookupKey_stampRec (t : Nat) (r : Rec) :
    lookupKey (stampRec t r) "scraper_timestamp" = some (Val.ts t) :=
  lookupKey_setKey r "scraper_timestamp" (Val.ts t)

theorem buildDf_ok_eq {t : Nat} {stores : Stores} {df : List Rec}
    (h : buildDf t stores = .ok df) :
    df = ((stampStores t stores).2.map
      (completeRec (unionKeys (stampStores t stores).2))).map lowerKeys := by
  rw [buildDf] at h
  split at h
  · cases h
  · injection h with h
    exact h.symm

theorem mem_buildDf {t : Nat} {stores : Stores} {df : List Rec} {r : Rec}
    (hok : buildDf t stores = .ok df) (h : r ∈ df) :
    ∃ sr ∈ (stampStores t stores).2,
      r = lowerKeys (completeRec (unionKeys (stampStores t stores).2) sr) := by
  rw [buildDf_ok_eq hok] at h
  rcases List.mem_map.mp h with ⟨cr, hcr, hlow⟩
  rcases List.mem_map.mp hcr with ⟨sr, hsr, hcomp⟩
  exact ⟨sr, hsr, by rw [← hlow, ← hcomp]⟩

theorem buildDf_ok_ne_nil {t : Nat} {stores : Stores} {df : List Rec}
    (h : buildDf t stores = .ok df) : df ≠ [] := by
  have hcols : (unionKeys (stampStores t stores).2).isEmpty = false := by
    rw [buildDf] at h
    by_cases hc : (unionKeys (stampStores t stores).2).isEmpty
    · rw [if_pos hc] at h
      cases h
    · exact Bool.of_not_eq_true hc
  have hrecs : (stampStores t stores).2 ≠ [] := by
    intro hnil
    rw [hnil] at hcols
    cases hcols
  rw [buildDf_ok_eq h]
  intro hnil
  rcases List.exists_mem_of_ne_nil _ hrecs with ⟨sr, hsr⟩
  have : lowerKeys (completeRec (unionKeys (stampStores t stores).2) sr)
      ∈ (((stampStores t stores).2.map
        (completeRec (unionKeys (stampStores t stores).2))).map lowerKeys) :=
    List.mem_map.mpr ⟨_, List.mem_map.mpr ⟨sr, hsr, rfl⟩, rfl⟩
  rw [hnil] at this
  cases this

/-! Helper lemmas about the batch loop. -/

theorem pyRangeAux_eq :
    ∀ (f s t : Nat), t - s ≤ f →
      pyRangeAux batchSize f s t =
        (List.range' 0 ((t - s + batchSize - 1) / batchSize)).map
          (fun j => s + j * batchSize) := by
  intro f
  induction f with
  | zero =>
    intro s t h
    have hc : (t - s + batchSize - 1) / batchSize = 0 := by
      simp only [batchSize] at *
      omega
    rw [pyRangeAux, hc]
    rfl
  | succ f ih =>
    intro s t h
    rw [pyRangeAux]
    by_cases hlt : s < t
    · rw [if_pos hlt]
      rw [ih (s + batchSize) t (by simp only [batchSize] at *; omega)]
      have hc : (t - s + batchSize - 1) / batchSize
          = (t - (s + batchSize) + batchSize - 1) / batchSize + 1 := by
        simp only [batchSize] at *
        omega
      rw [hc, List.range'_succ, List.map_cons]
      have htail : List.map (fun j => s + batchSize + j * batchSize)
            (List.range' 0 ((t - (s + batchSize) + batchSize - 1) / batchSize))
          = List.map (fun j => s + j * batchSize)
            (List.range' 1 ((t - (s + batchSize) + batchSize - 1) / batchSize)) := by
        rw [List.range'_eq_map_range, List.range'_eq_map_range, List.map_map,
          List.map_map]
        apply List.map_congr_left
        intro j _
        simp only [Function.comp]
        ring
      rw [htail]
      simp
    · rw [if_neg hlt]
      have hc : (t - s + batchSize - 1) / batchSize = 0 := by
        simp only [batchSize] at *
        omega
      rw [hc]
      rfl

theorem sliceBatches_eq (data : List Rec) :
    sliceBatches data =
      (List.range' 0 ((data.length + batchSize - 1) / batchSize)).map
        (fun j => (data.drop (j * batchSize)).take batchSize) := by
  rw [sliceBatches, pyRange, pyRangeAux_eq data.length 0 data.length (by omega)]
  rw [List.map_map]
  simp only [Nat.sub_zero]
  apply List.map_congr_left
  intro j _
  simp [Function.comp]

theorem loadGo_eq (insert : Nat → List Rec → Except String Unit) (data : List Rec) :
    ∀ (c k : Nat),
      loadGo insert data ((List.range' k c).map (fun j => j * batchSize)) =
        ((List.range' k c).map (fun j => (data.drop (j * batchSize)).take batchSize),
         ((List.range' k c).map (fun j =>
            match insert (j + 1) ((data.drop (j * batchSize)).take batchSize) with
            | .ok _ => ((data.drop (j * batchSize)).take batchSize).length
            | .error _ => 0)).sum,
         (List.range' k c).filterMap (fun j =>
            match insert (j + 1) ((data.drop (j * batchSize)).take batchSize) with
            | .ok _ => none
            | .error e => some ("Batch " ++ toString (j + 1) ++ ": " ++ e))) := by
  intro c
  induction c with
  | zero => intro k; rfl
  | succ c ih =>
    intro k
    rw [List.range'_succ, List.map_cons, loadGo]
    have hb : k * batchSize / batchSize + 1 = k + 1 := by
      rw [Nat.mul_div_cancel k (by simp [batchSize] : 0 < batchSize)]
    rw [hb, ih (k + 1)]
    cases hins : insert (k + 1) ((data.drop (k * batchSize)).take batchSize) with
    | ok u =>
      simp only [List.map_cons, List.sum_cons, List.filterMap_cons, hins, Nat.zero_add]
    | error e =>
      simp only [List.map_cons, List.sum_cons, List.filterMap_cons, hins, Nat.zero_add]

theorem runLoad_eq (insert : Nat → List Rec → Except String Unit) (data : List Rec) :
    runLoad insert data =
      (sliceBatches data,
       ((List.range' 0 ((data.length + batchSize - 1) / batchSize)).map (fun j =>
          match insert (j + 1) ((data.drop (j * batchSize)).take batchSize) with
          | .ok _ => ((data.drop (j * batchSize)).take batchSize).length
          | .error _ => 0)).sum,
       (List.range' 0 ((data.length + batchSize - 1) / batchSize)).filterMap (fun j =>
          match insert (j + 1) ((data.drop (j * batchSize)).take batchSize) with
          | .ok _ => none
          | .error e => some ("Batch " ++ toString (j + 1) ++ ": " ++ e))) := by
  rw [runLoad, pyRange, pyRangeAux_eq data.length 0 data.length (by omega)]
  simp only [Nat.sub_zero, Nat.zero_add]
  rw [loadGo_eq insert data _ 0, sliceBatches_eq]

theorem enumFrom_map_range' {α : Type} (f : Nat → α) :
    ∀ (c k n : Nat), List.enumFrom n ((List.range' k c).map f) =
      (List.range' k c).map (fun j => (n + (j - k), f j)) := by
  intro c
  induction c with
  | zero => intro k n; rfl
  | succ c ih =>
    intro k n
    rw [List.range'_succ, List.map_cons, List.map_cons, List.enumFrom, ih (k + 1) (n + 1)]
    congr 1
    · rw [Nat.sub_self, Nat.add_zero]
    · apply List.map_congr_left
      intro j hj
      have hge : k + 1 ≤ j := (List.mem_range'_1.mp hj).1
      have : n + 1 + (j - (k + 1)) = n + (j - k) := by omega
      rw [this]

theorem sliceBatches_nil : sliceBatches ([] : List Rec) = [] := rfl

theorem sliceBatches_cons (data : List Rec) (h : data ≠ []) :
    sliceBatches data = data.take batchSize :: sliceBatches (data.drop batchSize) := by
  have hN : 0 < data.length := List.length_pos.mpr h
  rw [sliceBatches_eq, sliceBatches_eq]
  have hc : (data.length + batchSize - 1) / batchSize
      = ((data.drop batchSize).length + batchSize - 1) / batchSize + 1 := by
    rw [List.length_drop]
    simp only [batchSize] at *
    omega
  rw [hc, List.range'_succ, List.map_cons]
  have htail : List.map (fun j => (data.drop (j * batchSize)).take batchSize)
        (List.range' 1 (((data.drop batchSize).length + batchSize - 1) / batchSize))
      = List.map (fun j => ((data.drop batchSize).drop (j * batchSize)).take batchSize)
        (List.range' 0 (((data.drop batchSize).length + batchSize - 1) / batchSize)) := by
    rw [List.range'_eq_map_range, List.range'_eq_map_range, List.map_map, List.map_map]
    apply List.map_congr_left
    intro j _
    simp only [Function.comp]
    rw [List.drop_drop]
    have : batchSize + (0 + j) * batchSize = (1 + j) * batchSize := by ring
    rw [this]
  rw [← htail]
  simp

theorem sliceBatches_flatten_le :
    ∀ (n : Nat) (data : List Rec), data.length ≤ n →
      (sliceBatches data).flatten = data := by
  intro n
  induction n with
  | zero =>
    intro data h
    have : data = [] := List.length_eq_zero.mp (Nat.le_zero.mp h)
    subst this
    rfl
  | succ n ih =>
    intro data h
    by_cases hnil : data = []
    · subst hnil; rfl
    · rw [sliceBatches_cons data hnil, List.flatten_cons]
      have hlen : (data.drop batchSize).length ≤ n := by
        rw [List.length_drop]
        have : 0 < data.length := List.length_pos.mpr hnil
        simp only [batchSize]
        omega
      rw [ih (data.drop batchSize) hlen, List.take_append_drop]

theorem sliceBatches_flatten (data : List Rec) : (sliceBatches data).flatten = data :=
  sliceBatches_flatten_le data.length data (Nat.le_refl _)

theorem sliceBatches_getLast_le :
    ∀ (n : Nat) (data : List Rec), data.length ≤ n → data ≠ [] →
      ∃ last, (sliceBatches data).getLast? = some last ∧
        last.length = if data.length % batchSize = 0 then batchSize
                      else data.length % batchSize := by
  intro n
  induction n with
  | zero =>
    intro data h hnil
    exact absurd (List.length_eq_zero.mp (Nat.le_zero.mp h)) hnil
  | succ n ih =>
    intro data h hnil
    have hN : 0 < data.length := List.length_pos.mpr hnil
    by_cases hdrop : data.drop batchSize = []
    · have hle : data.length ≤ batchSize := by
        have := List.length_drop batchSize data
        rw [hdrop] at this
        simp only [List.length_nil] at this
        omega
      refine ⟨data.take batchSize, ?_, ?_⟩
      · rw [sliceBatches_cons data hnil, hdrop, sliceBatches_nil]
        rfl
      · rw [List.length_take]
        simp only [batchSize] at *
        split
        · omega
        · omega
    · have hgt : batchSize < data.length := by
        have := List.length_drop batchSize data
        have hpos : 0 < (data.drop batchSize).length := List.length_pos.mpr hdrop
        omega
      have hlen : (data.drop batchSize).length ≤ n := by
        rw [List.length_drop]
        simp only [batchSize] at *
        omega
      rcases ih (data.drop batchSize) hlen hdrop with ⟨last, hlast, hlastlen⟩
      refine ⟨last, ?_, ?_⟩
      · rw [sliceBatches_cons data hnil]
        rcases hcons : sliceBatches (data.drop batchSize) with _ | ⟨b, bs⟩
        · rw [hcons] at hlast; cases hlast
        · rw [hcons] at hlast
          rw [List.getLast?_cons_cons, hlast]
      · rw [hlastlen, List.length_drop]
        have hmod : (data.length - batchSize) % batchSize = data.length % batchSize := by
          simp only [batchSize] at *
          omega
        rw [hmod]

/-! Claim theorems. -/

/-- Claim C3: if the fetched document lacks a top-level "data" mapping or
that mapping is empty, the process exits with status 1 before any
transformation or load is attempted: no insert calls, nothing counted,
no load errors. -/
theorem c3_missing_data_fatal (t : Nat) (fmt : Nat → String)
    (insert : Nat → List Rec → Except String Unit) :
    runPipeline none t fmt insert = ⟨.exited 1, [], 0, []⟩ ∧
    runPipeline (some []) t fmt insert = ⟨.exited 1, [], 0, []⟩ :=
  ⟨rfl, rfl⟩

/-- Claim C1 (code bug): with a non-empty store mapping whose flattening
yields zero records (every store entry an empty list or a non-list),
the claimed clean exit 0 never happens under pandas 2.x: line 122
raises AttributeError on the empty DataFrame (integer RangeIndex
columns reject the `.str` accessor), so the process dies with status 1
before the line-129 `df.empty` check, performing no load attempt. -/
theorem c1_empty_flatten_bug (stores : Stores) (t : Nat) (fmt : Nat → String)
    (insert : Nat → List Rec → Except String Unit) (hne : stores ≠ [])
    (hempty : ∀ p ∈ stores, entryRecs p.2 = []) :
    runPipeline (some stores) t fmt insert =
      ⟨.raised "AttributeError: Can only use .str accessor with string values!",
       [], 0, []⟩ ∧
    exitCode (runPipeline (some stores) t fmt insert).outcome = 1 := by
  have hrecs : (stampStores t stores).2 = [] := by
    simp only [stampStores, List.map_map]
    rw [List.flatten_eq_nil_iff]
    intro l hl
    rcases List.mem_map.mp hl with ⟨p, hp, hlp⟩
    cases hent : p.2 with
    | list ps =>
      have : ps = [] := by
        have := hempty p hp
        rw [hent] at this
        exact this
      rw [← hlp]
      simp [Function.comp, hent, stampEntry, entryRecs, this]
    | other v =>
      rw [← hlp]
      simp [Function.comp, hent, stampEntry, entryRecs]
  have hdf : buildDf t stores =
      .error "AttributeError: Can only use .str accessor with string values!" := by
    simp only [buildDf, hrecs]
    rfl
  cases stores with
  | nil => exact absurd rfl hne
  | cons p ps =>
    constructor
    · rw [runPipeline]
      simp only [Option.getD]
      rw [if_neg (by simp), hdf, afterBuild]
    · rw [runPipeline]
      simp only [Option.getD]
      rw [if_neg (by simp), hdf, afterBuild]
      rfl

/-- Witness for C1 at the concrete failing input: one empty-list store
entry and one non-list store entry; the run raises with exit status 1
and no insert call. -/
theorem c1_empty_flatten_bug_witness :
    (([("s", Entry.list []), ("u", Entry.other (Val.int 17))] : Stores) ≠ []) ∧
    runPipeline (some [("s", Entry.list []), ("u", Entry.other (Val.int 17))]) 0
        (fun _ => "T") (fun _ _ => .ok ()) =
      ⟨.raised "AttributeError: Can only use .str accessor with string values!",
       [], 0, []⟩ :=
  ⟨by decide,
   (c1_empty_flatten_bug _ 0 (fun _ => "T") (fun _ _ => .ok ()) (by decide)
     (by decide)).1⟩

/-- Claim C10: the store loop mutates the document in place; rendered by
explicit state passing, the updated document has the timestamp key on
every product of every list entry, the assembled record list consists
exactly of the (stamped) product objects of the updated document, and
whenever some original product does not already carry the stamp value
the updated document differs from the input. -/
theorem c10_inplace_stamp (t : Nat) (stores : Stores) :
    (∀ p ∈ (stampStores t stores).1, ∀ ps, p.2 = Entry.list ps →
       ∀ r ∈ ps, lookupKey r "scraper_timestamp" = some (Val.ts t)) ∧
    (stampStores t stores).2 =
      ((stampStores t stores).1.map (fun p => entryRecs p.2)).flatten ∧
    ((∃ p ∈ stores, ∃ ps, p.2 = Entry.list ps ∧
        ∃ r ∈ ps, lookupKey r "scraper_timestamp" ≠ some (Val.ts t)) →
      (stampStores t stores).1 ≠ stores) := by
  refine ⟨?_, stampStores_snd t stores, ?_⟩
  · intro p hp ps hps r hr
    simp only [stampStores] at hp
    rcases List.mem_map.mp hp with ⟨q, _, hq⟩
    rw [← hq] at hps
    cases hent : q.2 with
    | list qs =>
      rw [hent] at hps
      simp only [stampEntry] at hps
      injection hps with hps
      rw [← hps] at hr
      rcases List.mem_map.mp hr with ⟨r0, _, hr0⟩
      rw [← hr0]
      exact lookupKey_stampRec t r0
    | other v =>
      rw [hent] at hps
      simp only [stampEntry] at hps
      cases hps
  · rintro ⟨p, hp, ps, hps, r, hr, hlook⟩ heq
    simp only [stampStores] at heq
    have hfix := map_eq_self_mem _ stores heq p hp
    have hsnd : stampEntry t p.2 = p.2 := congrArg Prod.snd hfix
    rw [hps] at hsnd
    simp only [stampEntry] at hsnd
    injection hsnd with hmap
    have hrfix := map_eq_self_mem _ ps hmap r hr
    have : lookupKey (stampRec t r) "scraper_timestamp" = some (Val.ts t) :=
      lookupKey_stampRec t r
    rw [hrfix] at this
    exact hlook this

/-- Witness for C10 at a concrete input: a store with one unstamped
product; the document is really modified. -/
theorem c10_inplace_stamp_witness :
    (∃ p ∈ ([("s", Entry.list [[("a", Val.int 1)]])] : Stores),
       ∃ ps, p.2 = Entry.list ps ∧
         ∃ r ∈ ps, lookupKey r "scraper_timestamp" ≠ some (Val.ts 5)) ∧
    (stampStores 5 [("s", Entry.list [[("a", Val.int 1)]])]).1 ≠
      [("s", Entry.list [[("a", Val.int 1)]])] :=
  ⟨⟨("s", Entry.list [[("a", Val.int 1)]]), by decide,
    [[("a", Val.int 1)]], rfl, [("a", Val.int 1)], by decide, by decide⟩,
   (c10_inplace_stamp 5 _).2.2
     ⟨("s", Entry.list [[("a", Val.int 1)]]), by decide,
      [[("a", Val.int 1)]], rfl, [("a", Val.int 1)], by decide, by decide⟩⟩

/-- Claim C2 (amended): the fetcher issues at most 3 GET attempts and
waits `2 ^ attempt` seconds after a failed attempt while attempts
remain, so the waits performed are a prefix of 1 s, 2 s — a 4 s wait
never occurs because the third failure re-raises immediately; on
exhaustion the failure propagates fatally (non-zero exit) with no
fallback data source and no load attempt. -/
theorem c2_retry_backoff (res : Nat → Except String (Option Stores)) (t : Nat)
    (fmt : Nat → String) (insert : Nat → List Rec → Except String Unit) :
    (runFetch res).calls ≤ 3 ∧
    ((runFetch res).waits = [] ∨ (runFetch res).waits = [1] ∨
      (runFetch res).waits = [1, 2]) ∧
    (∀ e0 e1 e2, res 0 = .error e0 → res 1 = .error e1 → res 2 = .error e2 →
      (runFetch res).result = .error e2 ∧
      runProgram res t fmt insert = ⟨.raised e2, [], 0, []⟩ ∧
      exitCode (runProgram res t fmt insert).outcome ≠ 0) := by
  cases h0 : res 0 with
  | ok a =>
    have hres : runFetch res = ⟨.ok a, 1, []⟩ := by
      simp [runFetch, fetchGo, maxRetries, h0]
    exact ⟨by simp [hres], Or.inl (by rw [hres]),
      fun e0 e1 e2 h0' _ _ => Except.noConfusion h0'⟩
  | error e =>
    cases h1 : res 1 with
    | ok a =>
      have hres : runFetch res = ⟨.ok a, 2, [1]⟩ := by
        simp [runFetch, fetchGo, maxRetries, h0, h1, pow_zero]
      exact ⟨by simp [hres], Or.inr (Or.inl (by rw [hres])),
        fun e0 e1 e2 _ h1' _ => Except.noConfusion h1'⟩
    | error e1 =>
      cases h2 : res 2 with
      | ok a =>
        have hres : runFetch res = ⟨.ok a, 3, [1, 2]⟩ := by
          simp [runFetch, fetchGo, maxRetries, h0, h1, h2, pow_zero, pow_one]
        exact ⟨by simp [hres], Or.inr (Or.inr (by rw [hres])),
          fun e0 e1 e2 _ _ h2' => Except.noConfusion h2'⟩
      | error e2 =>
        have hres : runFetch res = ⟨.error e2, 3, [1, 2]⟩ := by
          simp [runFetch, fetchGo, maxRetries, h0, h1, h2, pow_zero, pow_one]
        refine ⟨by simp [hres], Or.inr (Or.inr (by rw [hres])), ?_⟩
        intro f0 f1 f2 _ _ h2'
        injection h2' with he
        subst he
        refine ⟨by rw [hres], by rw [runProgram, hres], ?_⟩
        rw [runProgram, hres]
        exact Nat.one_ne_zero

/-- Counterexample to C2 as stated: in the maximal-failure run (all three
attempts fail) the loop performs exactly the waits 1 s and 2 s; no wait
of 4 seconds ever occurs, because the third failed attempt re-raises
instead of sleeping. -/
theorem c2_retry_backoff_counterexample :
    (runFetch (α := Option Stores) (fun _ => .error "boom")).waits = [1, 2] ∧
    4 ∉ (runFetch (α := Option Stores) (fun _ => .error "boom")).waits :=
  ⟨rfl, by decide⟩

/-- Witness for C2 at a concrete input: every attempt fails, the failure
propagates, nothing is loaded. -/
theorem c2_retry_backoff_witness :
    ((fun _ => Except.error "boom" : Nat → Except String (Option Stores)) 0
       = .error "boom") ∧
    runProgram (fun _ => .error "boom") 0 (fun _ => "T") (fun _ _ => .ok ()) =
      ⟨.raised "boom", [], 0, []⟩ :=
  ⟨rfl,
   ((c2_retry_backoff (fun _ => .error "boom") 0 (fun _ => "T")
       (fun _ _ => .ok ())).2.2 "boom" "boom" "boom" rfl rfl rfl).2.1⟩

/-- Claim C5: price-like values that fail numeric coercion become the
missing marker and serialize as an explicit null with the field
retained, while the strict int64 casts of the best-before-date and
quantity fields raise on unparsable values and a conversion error fails
the whole run with nothing loaded. -/
theorem c5_coercion_asymmetry :
    (∀ s, parseDec s = none →
       toNumericCoerce (.str s) = .nan ∧ deNa (toNumericCoerce (.str s)) = .null) ∧
    (∀ r : Rec, (serializeRec r).map Prod.fst = r.map Prod.fst) ∧
    (∀ s, parsePyInt s = none →
       toInt64Strict (.str s) = .error ("invalid literal for int with base 10: " ++ s)) ∧
    (∀ (stores : Stores) (t : Nat) (fmt : Nat → String)
       (insert : Nat → List Rec → Except String Unit) (df : List Rec) (e : String),
       stores ≠ [] → buildDf t stores = .ok df →
       applyConversions fmt df = .error e →
       runPipeline (some stores) t fmt insert = ⟨.raised e, [], 0, []⟩) := by
  refine ⟨?_, keys_serializeRec, ?_, ?_⟩
  · intro s h
    refine ⟨by simp [toNumericCoerce, h], by simp [toNumericCoerce, h, deNa]⟩
  · intro s h
    simp [toInt64Strict, h]
  · intro stores t fmt insert df e hne hok hconv
    have hdf : df ≠ [] := buildDf_ok_ne_nil hok
    cases stores with
    | nil => exact absurd rfl hne
    | cons p ps =>
      rw [runPipeline]
      simp only [Option.getD]
      rw [if_neg (by simp), hok, afterBuild,
        if_neg (by simp [List.isEmpty_eq_false.mpr hdf]), hconv, afterConv]

/-- Witness for C5 at concrete inputs: an unparsable price string ends as
null, an unparsable best-before-date string fails the whole run. -/
theorem c5_coercion_asymmetry_witness :
    parseDec "abc" = none ∧
    deNa (toNumericCoerce (.str "abc")) = .null ∧
    parsePyInt "3.5" = none ∧
    toInt64Strict (.str "3.5") = .error "invalid literal for int with base 10: 3.5" ∧
    runPipeline (some [("s", Entry.list [[("bestbeforedate", Val.str "oops")]])]) 0
        (fun _ => "T") (fun _ _ => .ok ()) =
      ⟨.raised "invalid literal for int with base 10: oops", [], 0, []⟩ :=
  ⟨by decide, (c5_coercion_asymmetry.1 "abc" (by decide)).2,
   by decide, c5_coercion_asymmetry.2.2.1 "3.5" (by decide),
   c5_coercion_asymmetry.2.2.2 _ 0 (fun _ => "T") (fun _ _ => .ok ())
     [[("bestbeforedate", Val.str "oops"), ("scraper_timestamp", Val.ts 0)]] _
     (by decide) rfl rfl⟩

/-- Claim C6 (amended): whenever the image-gallery field is present its
transformed value is a list — an existing list passes through unchanged,
a falsy value becomes the empty list, any other (truthy) scalar wraps to
a one-element list, and serialization preserves it; but when no record
carries the field the column is never created and the field is absent
(see the counterexample). -/
theorem c6_gallery_normalized (v : Val) :
    ((normGallery v).isList = true) ∧
    (v.isList = true → normGallery v = v) ∧
    (v.isList = false → truthy v = false → normGallery v = .vnil) ∧
    (v.isList = false → truthy v = true → normGallery v = .vcons v .vnil) ∧
    deNa (normGallery v) = normGallery v := by
  refine ⟨?_, ?_, ?_, ?_, ?_⟩
  · rw [normGallery]
    split_ifs with h1 h2
    · exact h1
    · rfl
    · rfl
  · intro h
    rw [normGallery, if_pos h]
  · intro h ht
    rw [normGallery, if_neg (by simp [h]), if_neg (by simp [ht])]
  · intro h ht
    rw [normGallery, if_neg (by simp [h]), if_pos ht]
  · rw [normGallery]
    split_ifs with h1 h2
    · cases v <;> simp_all [Val.isList, deNa]
    · rfl
    · rfl

/-- Witness for C6 at concrete inputs: a truthy scalar wraps, a falsy
value empties, a list passes through. -/
theorem c6_gallery_normalized_witness :
    ((Val.str "x").isList = false) ∧ (truthy (Val.str "x") = true) ∧
    normGallery (Val.str "x") = .vcons (Val.str "x") .vnil :=
  ⟨by decide, by decide,
   (c6_gallery_normalized (Val.str "x")).2.2.2.1 (by decide) (by decide)⟩

/-- Counterexample to C6 as stated: in a run where no product carries the
image-gallery field, the column is never created, so the field is
absent from the output record — the claim says the field is never
absent. -/
theorem c6_gallery_counterexample :
    ((runPipeline (some [("s", Entry.list [[("price", Val.int 1)]])]) 0 (fun _ => "T")
        (fun _ _ => .ok ())).insertCalls.map (fun c => c.map (fun r =>
          lookupKey r "imagegallery"))) = [[none]] := rfl

theorem enumFrom_one_slice {α : Type} (data : List Rec) (g : Nat × List Rec → α) :
    (List.enumFrom 1 (sliceBatches data)).map g =
      (List.range' 0 ((data.length + batchSize - 1) / batchSize)).map
        (fun j => g (j + 1, (data.drop (j * batchSize)).take batchSize)) := by
  rw [sliceBatches_eq, enumFrom_map_range', List.map_map]
  apply List.map_congr_left
  intro j _
  simp only [Function.comp, Nat.sub_zero]
  have h : 1 + j = j + 1 := by omega
  rw [h]

theorem enumFrom_one_slice_filterMap {α : Type} (data : List Rec)
    (g : Nat × List Rec → Option α) :
    (List.enumFrom 1 (sliceBatches data)).filterMap g =
      (List.range' 0 ((data.length + batchSize - 1) / batchSize)).filterMap
        (fun j => g (j + 1, (data.drop (j * batchSize)).take batchSize)) := by
  rw [sliceBatches_eq, enumFrom_map_range', List.filterMap_map]
  congr 1
  funext j
  simp only [Function.comp, Nat.sub_zero]
  have h : 1 + j = j + 1 := by omega
  rw [h]

/-- Claim C4: the loader attempts every batch whatever the earlier insert
outcomes (the calls are exactly the slices in order), the total is the
sum of the sizes of the successful batches, each failed batch
contributes exactly one "Batch n: msg" entry, and the final exit status
is 1 exactly when the error list is non-empty. -/
theorem c4_load_continues (insert : Nat → List Rec → Except String Unit)
    (data : List Rec) :
    (finishLoad insert data).insertCalls = sliceBatches data ∧
    (finishLoad insert data).totalInserted =
      ((List.enumFrom 1 (sliceBatches data)).map (fun p =>
         match insert p.1 p.2 with
         | .ok _ => p.2.length
         | .error _ => 0)).sum ∧
    (finishLoad insert data).loadErrors =
      (List.enumFrom 1 (sliceBatches data)).filterMap (fun p =>
         match insert p.1 p.2 with
         | .ok _ => none
         | .error e => some ("Batch " ++ toString p.1 ++ ": " ++ e)) ∧
    (finishLoad insert data).outcome =
      (if (finishLoad insert data).loadErrors = [] then Outcome.exited 0
       else Outcome.exited 1) := by
  refine ⟨?_, ?_, ?_, ?_⟩
  · simp only [finishLoad, runLoad_eq]
  · simp only [finishLoad, runLoad_eq, enumFrom_one_slice]
  · simp only [finishLoad, runLoad_eq, enumFrom_one_slice_filterMap]
  · simp only [finishLoad, List.isEmpty_iff]

/-- Claim C9: for N records the loader issues exactly the ceiling of
N / 1000 insert calls over contiguous in-order slices, each of at most
1000 records, whose concatenation is the record list; the final batch
holds N mod 1000 records, or 1000 when N is divisible by 1000. -/
theorem c9_batch_partition (data : List Rec)
    (insert : Nat → List Rec → Except String Unit) (hN : 0 < data.length) :
    (finishLoad insert data).insertCalls = sliceBatches data ∧
    (sliceBatches data).length = (data.length + batchSize - 1) / batchSize ∧
    (∀ b ∈ sliceBatches data, b.length ≤ batchSize) ∧
    (sliceBatches data).flatten = data ∧
    (∃ last, (sliceBatches data).getLast? = some last ∧
       last.length = if data.length % batchSize = 0 then batchSize
                     else data.length % batchSize) := by
  refine ⟨by simp only [finishLoad, runLoad_eq], ?_, ?_, sliceBatches_flatten data,
    sliceBatches_getLast_le data.length data (Nat.le_refl _)
      (List.length_pos.mp hN)⟩
  · rw [sliceBatches_eq, List.length_map, List.length_range']
  · intro b hb
    rw [sliceBatches_eq] at hb
    rcases List.mem_map.mp hb with ⟨j, _, hbj⟩
    rw [← hbj]
    apply List.length_take_le

/-- Witness for C9 at a concrete input: one record yields one batch. -/
theorem c9_batch_partition_witness :
    0 < ([[("a", Val.int 1)]] : List Rec).length ∧
    (finishLoad (fun _ _ => .ok ()) [[("a", Val.int 1)]]).insertCalls =
      sliceBatches [[("a", Val.int 1)]] :=
  ⟨by decide,
   (c9_batch_partition [[("a", Val.int 1)]] (fun _ _ => .ok ()) (by decide)).1⟩

theorem except_bind_ok {α β : Type} (a : α) (f : α → Except String β) :
    (Except.ok a).bind f = f a := rfl

theorem except_bind_error {α β : Type} (e : String) (f : α → Except String β) :
    (Except.error e : Except String α).bind f = .error e := rfl

theorem convStepE_ok_keys {c : String} {f : Val → Except String Val}
    {df df' : List Rec} (h : convStepE c f df = .ok df') :
    ∀ r' ∈ df', ∃ r ∈ df, r'.map Prod.fst = r.map Prod.fst := by
  rw [convStepE] at h
  split at h
  · intro r' hr'
    rcases mapME_ok_mem h r' hr' with ⟨r, hr, hconv⟩
    exact ⟨r, hr, convColE_ok_keys hconv⟩
  · injection h with h
    subst h
    exact fun r' hr' => ⟨r', hr', rfl⟩

theorem convStepP_keys {c : String} {f : Val → Val} {df : List Rec} :
    ∀ r' ∈ convStepP c f df, ∃ r ∈ df, r'.map Prod.fst = r.map Prod.fst := by
  rw [convStepP]
  split
  · intro r' hr'
    rcases List.mem_map.mp hr' with ⟨r, hr, hconv⟩
    exact ⟨r, hr, by rw [← hconv, keys_convCol]⟩
  · exact fun r' hr' => ⟨r', hr', rfl⟩

theorem convStepE_ok_lookup_ne {c k : String} {f : Val → Except String Val}
    {df df' : List Rec} (hne : k ≠ c) (h : convStepE c f df = .ok df') :
    ∀ r' ∈ df', ∃ r ∈ df, lookupKey r' k = lookupKey r k := by
  rw [convStepE] at h
  split at h
  · intro r' hr'
    rcases mapME_ok_mem h r' hr' with ⟨r, hr, hconv⟩
    exact ⟨r, hr, convColE_ok_lookup_ne hne hconv⟩
  · injection h with h
    subst h
    exact fun r' hr' => ⟨r', hr', rfl⟩

theorem convStepP_lookup_ne {c k : String} {f : Val → Val} {df : List Rec}
    (hne : k ≠ c) :
    ∀ r' ∈ convStepP c f df, ∃ r ∈ df, lookupKey r' k = lookupKey r k := by
  rw [convStepP]
  split
  · intro r' hr'
    rcases List.mem_map.mp hr' with ⟨r, hr, hconv⟩
    exact ⟨r, hr, by rw [← hconv, lookupKey_convCol_ne f r hne]⟩
  · exact fun r' hr' => ⟨r', hr', rfl⟩

theorem applyConversions_ok_keys {fmt : Nat → String} {df df2 : List Rec}
    (h : applyConversions fmt df = .ok df2) :
    ∀ r2 ∈ df2, ∃ r0 ∈ df, r2.map Prod.fst = r0.map Prod.fst := by
  rw [applyConversions] at h
  cases h1 : convStepE "scraper_timestamp" (fmtCell fmt) df with
  | error e => rw [h1, except_bind_error] at h; cases h
  | ok df1 =>
    rw [h1, except_bind_ok] at h
    cases h4 : convStepE "bestbeforedate" toInt64Strict
        (convStepP "price" toNumericCoerce
          (convStepP "originalprice" toNumericCoerce df1)) with
    | error e => rw [h4, except_bind_error] at h; cases h
    | ok df4 =>
      rw [h4, except_bind_ok] at h
      cases h5 : convStepE "quantityavailable" toInt64Strict df4 with
      | error e => rw [h5, except_bind_error] at h; cases h
      | ok df5 =>
        rw [h5, except_bind_ok] at h
        injection h with h
        subst h
        intro r2 hr2
        rcases convStepP_keys r2 hr2 with ⟨r5, hr5, k5⟩
        rcases convStepE_ok_keys h5 r5 hr5 with ⟨r4, hr4, k4⟩
        rcases convStepE_ok_keys h4 r4 hr4 with ⟨r3, hr3, k3⟩
        rcases convStepP_keys r3 hr3 with ⟨rp, hrp, kp⟩
        rcases convStepP_keys rp hrp with ⟨r1, hr1, k1⟩
        rcases convStepE_ok_keys h1 r1 hr1 with ⟨r0, hr0, k0⟩
        exact ⟨r0, hr0, by rw [k5, k4, k3, kp, k1, k0]⟩

theorem applyConversions_ok_st {fmt : Nat → String} {df df2 : List Rec} {t : Nat}
    (h : applyConversions fmt df = .ok df2)
    (hst : hasCol "scraper_timestamp" df = true)
    (hall : ∀ r ∈ df, lookupKey r "scraper_timestamp" = some (Val.ts t)) :
    ∀ r2 ∈ df2, lookupKey r2 "scraper_timestamp" = some (Val.str (fmt t)) := by
  rw [applyConversions] at h
  cases h1 : convStepE "scraper_timestamp" (fmtCell fmt) df with
  | error e => rw [h1, except_bind_error] at h; cases h
  | ok df1 =>
    have hall1 : ∀ r1 ∈ df1, lookupKey r1 "scraper_timestamp" = some (Val.str (fmt t)) := by
      intro r1 hr1
      rw [convStepE, if_pos hst] at h1
      rcases mapME_ok_mem h1 r1 hr1 with ⟨r, hr, hconv⟩
      rcases convColE_ok_lookup_eq hconv (hall r hr) with ⟨w, hw, hlook⟩
      have : w = Val.str (fmt t) := by
        rw [fmtCell] at hw
        injection hw with hw
        exact hw.symm
      rw [hlook, this]
    rw [h1, except_bind_ok] at h
    cases h4 : convStepE "bestbeforedate" toInt64Strict
        (convStepP "price" toNumericCoerce
          (convStepP "originalprice" toNumericCoerce df1)) with
    | error e => rw [h4, except_bind_error] at h; cases h
    | ok df4 =>
      rw [h4, except_bind_ok] at h
      cases h5 : convStepE "quantityavailable" toInt64Strict df4 with
      | error e => rw [h5, except_bind_error] at h; cases h
      | ok df5 =>
        rw [h5, except_bind_ok] at h
        injection h with h
        subst h
        intro r2 hr2
        rcases convStepP_lookup_ne
          (show ("scraper_timestamp" : String) ≠ "imagegallery" by decide)
          r2 hr2 with ⟨r5, hr5, k5⟩
        rcases convStepE_ok_lookup_ne
          (show ("scraper_timestamp" : String) ≠ "quantityavailable" by decide)
          h5 r5 hr5 with ⟨r4, hr4, k4⟩
        rcases convStepE_ok_lookup_ne
          (show ("scraper_timestamp" : String) ≠ "bestbeforedate" by decide)
          h4 r4 hr4 with ⟨r3, hr3, k3⟩
        rcases convStepP_lookup_ne
          (show ("scraper_timestamp" : String) ≠ "price" by decide)
          r3 hr3 with ⟨rp, hrp, kp⟩
        rcases convStepP_lookup_ne
          (show ("scraper_timestamp" : String) ≠ "originalprice" by decide)
          rp hrp with ⟨r1, hr1, k1⟩
        rw [k5, k4, k3, kp, k1]
        exact hall1 r1 hr1

theorem st_mem_unionKeys {t : Nat} {stores : Stores} {sr : Rec}
    (hsr : sr ∈ (stampStores t stores).2) :
    "scraper_timestamp" ∈ unionKeys (stampStores t stores).2 := by
  rcases mem_stampStores_snd hsr with ⟨p, hp, ps, hps, rp, hrp, hstamp⟩
  have hlk : lookupKey sr "scraper_timestamp" = some (Val.ts t) := by
    rw [hstamp]
    exact lookupKey_stampRec t rp
  exact mem_unionKeys.mpr ⟨sr, hsr, lookupKey_mem_keys hlk⟩

theorem unionKeys_case_distinct {t : Nat} {stores : Stores}
    (hcol : ∀ p ∈ stores, ∀ r ∈ entryRecs p.2, ∀ kv ∈ r,
       strLower kv.1 = "scraper_timestamp" → kv.1 = "scraper_timestamp") :
    ∀ c ∈ unionKeys (stampStores t stores).2,
      strLower c = "scraper_timestamp" → c = "scraper_timestamp" := by
  intro c hc hlow
  rcases mem_unionKeys.mp hc with ⟨r', hr', hcr⟩
  rcases mem_stampStores_snd hr' with ⟨p', hp', ps', hps', rp', hrp', hst'⟩
  have hsplit := keys_setKey rp' "scraper_timestamp" c (Val.ts t)
    (by rw [hst'] at hcr; exact hcr)
  cases hsplit with
  | inl hmem =>
    rcases List.mem_map.mp hmem with ⟨kv, hkv, hfst⟩
    have hrp'mem : rp' ∈ entryRecs p'.2 := by
      rw [hps']
      exact hrp'
    have := hcol p' hp' rp' hrp'mem kv hkv (by rw [hfst]; exact hlow)
    rw [← hfst]
    exact this
  | inr heq => exact heq

theorem buildDf_lookup_st {t : Nat} {stores : Stores} {df : List Rec}
    (hok : buildDf t stores = .ok df)
    (hcol : ∀ p ∈ stores, ∀ r ∈ entryRecs p.2, ∀ kv ∈ r,
       strLower kv.1 = "scraper_timestamp" → kv.1 = "scraper_timestamp") :
    ∀ r0 ∈ df, lookupKey r0 "scraper_timestamp" = some (Val.ts t) := by
  intro r0 hr0
  rcases mem_buildDf hok hr0 with ⟨sr, hsr, heq⟩
  rcases mem_stampStores_snd hsr with ⟨p, hp, ps, hps, rp, hrp, hstamp⟩
  have hkey : "scraper_timestamp" ∈ unionKeys (stampStores t stores).2 :=
    st_mem_unionKeys hsr
  have hsrlook : lookupKey sr "scraper_timestamp" = some (Val.ts t) := by
    rw [hstamp]
    exact lookupKey_stampRec t rp
  have hks : ∀ k' ∈ (completeRec (unionKeys (stampStores t stores).2) sr).map Prod.fst,
      strLower k' = "scraper_timestamp" → k' = "scraper_timestamp" := by
    rw [keys_completeRec]
    exact unionKeys_case_distinct hcol
  rw [heq, lookupKey_lowerKeys hks (by decide),
    lookupKey_completeRec sr hkey, hsrlook]
  rfl

theorem buildDf_keys {t : Nat} {stores : Stores} {df : List Rec} {r0 : Rec}
    (hok : buildDf t stores = .ok df) (hr0 : r0 ∈ df) :
    r0.map Prod.fst = (unionKeys (stampStores t stores).2).map strLower := by
  rcases mem_buildDf hok hr0 with ⟨sr, _, heq⟩
  rw [heq, keys_lowerKeys, keys_completeRec]

theorem buildDf_hasCol_st {t : Nat} {stores : Stores} {df : List Rec}
    (hok : buildDf t stores = .ok df) :
    hasCol "scraper_timestamp" df = true := by
  rcases List.exists_mem_of_ne_nil df (buildDf_ok_ne_nil hok) with ⟨r0, hr0⟩
  rcases mem_buildDf hok hr0 with ⟨sr, hsr, heq⟩
  refine hasCol_iff.mpr ⟨r0, hr0, ?_⟩
  rw [buildDf_keys hok hr0]
  exact List.mem_map.mpr ⟨"scraper_timestamp", st_mem_unionKeys hsr, by decide⟩

/-- Claim C7: under the (pandas-honest) assumption that no original
product key case-collides with the timestamp key, every record of every
insert call carries the identical, non-null formatted run timestamp. -/
theorem c7_uniform_timestamp (stores : Stores) (t : Nat) (fmt : Nat → String)
    (insert : Nat → List Rec → Except String Unit)
    (hcol : ∀ p ∈ stores, ∀ r ∈ entryRecs p.2, ∀ kv ∈ r,
       strLower kv.1 = "scraper_timestamp" → kv.1 = "scraper_timestamp") :
    ∀ call ∈ (runPipeline (some stores) t fmt insert).insertCalls,
      ∀ r ∈ call, lookupKey r "scraper_timestamp" = some (Val.str (fmt t)) := by
  intro call hcall r hr
  rw [runPipeline] at hcall
  simp only [Option.getD] at hcall
  by_cases hse : stores.isEmpty
  · rw [if_pos hse] at hcall
    cases hcall
  · rw [if_neg hse] at hcall
    cases hok : buildDf t stores with
    | error e =>
      rw [hok, afterBuild] at hcall
      cases hcall
    | ok df =>
      rw [hok, afterBuild] at hcall
      by_cases hde : df.isEmpty
      · rw [if_pos hde] at hcall
        cases hcall
      · rw [if_neg hde] at hcall
        cases hconv : applyConversions fmt df with
        | error e =>
          rw [hconv, afterConv] at hcall
          cases hcall
        | ok df2 =>
          rw [hconv, afterConv] at hcall
          have hcalls : (finishLoad insert (df2.map serializeRec)).insertCalls
              = sliceBatches (df2.map serializeRec) := by
            simp only [finishLoad, runLoad_eq]
          rw [hcalls, sliceBatches_eq] at hcall
          rcases List.mem_map.mp hcall with ⟨j, _, hcj⟩
          rw [← hcj] at hr
          have hrdata : r ∈ df2.map serializeRec :=
            List.mem_of_mem_drop (List.mem_of_mem_take hr)
          rcases List.mem_map.mp hrdata with ⟨r2, hr2, hser⟩
          have hst : hasCol "scraper_timestamp" df = true :=
            buildDf_hasCol_st hok
          have hlook2 : lookupKey r2 "scraper_timestamp" = some (Val.str (fmt t)) :=
            applyConversions_ok_st hconv hst (buildDf_lookup_st hok hcol) r2 hr2
          rw [← hser, lookupKey_serializeRec, hlook2]
          rfl

/-- Witness for C7 at a concrete input: the single output record carries
the formatted run timestamp. -/
theorem c7_uniform_timestamp_witness :
    (∀ p ∈ ([("s", Entry.list [[("price", Val.int 1)]])] : Stores),
       ∀ r ∈ entryRecs p.2, ∀ kv ∈ r,
         strLower kv.1 = "scraper_timestamp" → kv.1 = "scraper_timestamp") ∧
    lookupKey [("price", Val.int 1), ("scraper_timestamp", Val.str "T")]
        "scraper_timestamp" = some (Val.str "T") :=
  ⟨by decide,
   c7_uniform_timestamp [("s", Entry.list [[("price", Val.int 1)]])] 0 (fun _ => "T")
     (fun _ _ => .ok ()) (by decide)
     [[("price", Val.int 1), ("scraper_timestamp", Val.str "T")]] (by decide)
     [("price", Val.int 1), ("scraper_timestamp", Val.str "T")] (by decide)⟩

/-- Claim C8: every field key of every record passed to the loader is
lower-case (a fixed point of the lower-casing applied to the columns). -/
theorem c8_lowercase_keys (dataField : Option Stores) (t : Nat) (fmt : Nat → String)
    (insert : Nat → List Rec → Except String Unit) :
    ∀ call ∈ (runPipeline dataField t fmt insert).insertCalls,
      ∀ r ∈ call, ∀ kv ∈ r, strLower kv.1 = kv.1 := by
  intro call hcall r hr kv hkv
  rw [runPipeline] at hcall
  by_cases hse : (dataField.getD []).isEmpty
  · rw [if_pos hse] at hcall
    cases hcall
  · rw [if_neg hse] at hcall
    cases hok : buildDf t (dataField.getD []) with
    | error e =>
      rw [hok, afterBuild] at hcall
      cases hcall
    | ok df =>
      rw [hok, afterBuild] at hcall
      by_cases hde : df.isEmpty
      · rw [if_pos hde] at hcall
        cases hcall
      · rw [if_neg hde] at hcall
        cases hconv : applyConversions fmt df with
        | error e =>
          rw [hconv, afterConv] at hcall
          cases hcall
        | ok df2 =>
          rw [hconv, afterConv] at hcall
          have hcalls : (finishLoad insert (df2.map serializeRec)).insertCalls
              = sliceBatches (df2.map serializeRec) := by
            simp only [finishLoad, runLoad_eq]
          rw [hcalls, sliceBatches_eq] at hcall
          rcases List.mem_map.mp hcall with ⟨j, _, hcj⟩
          rw [← hcj] at hr
          have hrdata : r ∈ df2.map serializeRec :=
            List.mem_of_mem_drop (List.mem_of_mem_take hr)
          rcases List.mem_map.mp hrdata with ⟨r2, hr2, hser⟩
          rcases applyConversions_ok_keys hconv r2 hr2 with ⟨r0, hr0, hkeys⟩
          have hkvkey : kv.1 ∈ r.map Prod.fst := List.mem_map.mpr ⟨kv, hkv, rfl⟩
          rw [← hser, keys_serializeRec, hkeys, buildDf_keys hok hr0] at hkvkey
          rcases List.mem_map.mp hkvkey with ⟨c, _, hc⟩
          rw [← hc]
          exact strLower_idem c

/-- Witness for C8 at a concrete input: a key of the single output record
is a lower-casing fixed point. -/
theorem c8_lowercase_keys_witness :
    strLower "price" = "price" :=
  c8_lowercase_keys (some [("s", Entry.list [[("Price", Val.int 1)]])]) 0
    (fun _ => "T") (fun _ _ => .ok ())
    [[("price", Val.int 1), ("scraper_timestamp", Val.str "T")]] (by decide)
    [("price", Val.int 1), ("scraper_timestamp", Val.str "T")] (by decide)
    ("price", Val.int 1) (by decide)

end FFScrape
